import Mathlib

/-!
Verification of the badge-image processing script
(`server/scripts/process-badge-image.py`).

The script is shallowly embedded: an image is a finite grid of RGBA
pixels given by its dimensions and a total pixel function; the PIL
operations the script calls (`crop`, `paste`, `putalpha`,
`ImageDraw.ellipse`, `resize`) are modelled at the level of their
documented semantics.  `resize` with the LANCZOS filter is a
floating-point convolution, so it is modelled as an arbitrary resampler
parameter; the properties proved about resized outputs assume only that
the resampler is local (each target pixel depends on source pixels in
the documented support window, a radius-3 window scaled by the
resize factor) and conservative on constant-alpha regions, which holds
for the normalized convolution PIL implements.
-/

/-- One RGBA pixel; channel values are naturals (0–255 in real images). -/
structure Pixel where
  r : Nat
  g : Nat
  b : Nat
  a : Nat
deriving DecidableEq

instance : Inhabited Pixel := ⟨⟨0, 0, 0, 0⟩⟩

/-- An image: dimensions plus a total pixel function (only the values at
coordinates below the dimensions are meaningful). -/
structure Image where
  width : Nat
  height : Nat
  pix : Nat → Nat → Pixel

instance : Inhabited Image := ⟨⟨0, 0, fun _ _ => default⟩⟩

/-- The brightness test of `find_circle_bounds`: Python computes
`(r + g + b) / 3 > threshold` with true division; for an integral
threshold this is equivalent to `r + g + b > 3 * threshold`. -/
def bright (p : Pixel) (threshold : Nat) : Bool :=
  decide (3 * threshold < p.r + p.g + p.b)

/-- One iteration of the scan loop body:
`if isB x: (if first is None: first = x); last = x`. -/
def scanStep (isB : Nat → Bool) (fl : Option Nat × Option Nat) (x : Nat) :
    Option Nat × Option Nat :=
  if isB x then (some (fl.1.getD x), some x) else fl

/-- The scan loop `for x in range(n)` recording the first and last index
satisfying `isB`. -/
def scanFirstLast (isB : Nat → Bool) (n : Nat) : Option Nat × Option Nat :=
  (List.range n).foldl (scanStep isB) (none, none)

/-- `find_circle_bounds(img, threshold=50)`: scan the middle row and the
middle column for bright pixels and derive centre and radius.  When a
scan finds no bright pixel the Python code raises a `TypeError`
(`None` used in arithmetic); this is modelled by returning `none`. -/
def find_circle_bounds (img : Image) (threshold : Nat := 50) :
    Option (Nat × Nat × Nat) :=
  match scanFirstLast (fun x => bright (img.pix x (img.height / 2)) threshold) img.width,
        scanFirstLast (fun y => bright (img.pix (img.width / 2) y) threshold) img.height with
  | (some first_h, some last_h), (some first_v, some last_v) =>
      some ((first_h + last_h) / 2, (first_v + last_v) / 2,
            max ((last_h - first_h) / 2) ((last_v - first_v) / 2) + 5)
  | _, _ => none

/-- PIL `Image.crop((left, top, right, bottom))`: the result has size
`(right-left, bottom-top)`; pixels taken from outside the source are
filled with zeros (transparent black). -/
def Image.crop (img : Image) (left top right bottom : Int) : Image where
  width := (right - left).toNat
  height := (bottom - top).toNat
  pix := fun x y =>
    let sx : Int := left + x
    let sy : Int := top + y
    if 0 ≤ sx ∧ sx < img.width ∧ 0 ≤ sy ∧ sy < img.height then
      img.pix sx.toNat sy.toNat
    else ⟨0, 0, 0, 0⟩

/-- PIL `Image.paste(src, (px, py))` on RGBA images: pixels inside the
pasted rectangle are overwritten (alpha included). -/
def Image.paste (base src : Image) (px py : Nat) : Image where
  width := base.width
  height := base.height
  pix := fun x y =>
    if px ≤ x ∧ x < px + src.width ∧ py ≤ y ∧ y < py + src.height then
      src.pix (x - px) (y - py)
    else base.pix x y

/-- PIL `Image.new("RGBA", (n, n), (0, 0, 0, 0))`: a transparent square
canvas. -/
def Image.newRGBA (n : Nat) : Image where
  width := n
  height := n
  pix := fun _ _ => ⟨0, 0, 0, 0⟩

/-- Model of the single-channel mask produced by
`ImageDraw.Draw(mask).ellipse([8, 8, m-8, m-8], fill=255)` on an
`m`×`m` canvas of zeros: value 255 at the pixels inside the closed
ellipse whose bounding box is `[8, 8, m-8, m-8]`, i.e. the disc of
diameter `m - 16` centred at `(m/2, m/2)`, and 0 elsewhere.  When the
bounding box is inverted (`m - 8 < 8`) Pillow draws nothing. -/
def circleMask (m : Nat) (x y : Nat) : Nat :=
  if 16 ≤ m ∧
      (2 * (x : Int) - m) ^ 2 + (2 * (y : Int) - m) ^ 2 ≤ ((m : Int) - 16) ^ 2 then
    255
  else 0

/-- PIL `img.putalpha(mask)`: the alpha band is replaced by the mask
value; colour channels are unchanged. -/
def Image.putalphaMask (img : Image) (mask : Nat → Nat → Nat) : Image where
  width := img.width
  height := img.height
  pix := fun x y =>
    let p := img.pix x y
    ⟨p.r, p.g, p.b, mask x y⟩

/-- Step 1 of `process_badge`: crop the source to a square of side
`h = img.height`, horizontally centred
(`left = (w - square_size) // 2`, Python floor division). -/
def cropToSquare (img : Image) : Image :=
  let square_size : Int := img.height
  let left : Int := ((img.width : Int) - square_size).fdiv 2
  img.crop left 0 (left + square_size) square_size

/-- Step 2 of `process_badge`: tight crop around the detected circle,
clamped to the square's edges. -/
def tightCrop (sq : Image) (cx cy radius : Nat) : Image :=
  sq.crop (max 0 ((cx : Int) - radius)) (max 0 ((cy : Int) - radius))
    (min (sq.width : Int) ((cx : Int) + radius))
    (min (sq.width : Int) ((cy : Int) + radius))

/-- Step 3 of `process_badge`: paste the tight crop centred on a
transparent square canvas of side `max_dim = max(tw, th)`. -/
def padToSquare (t : Image) : Image :=
  let max_dim := max t.width t.height
  (Image.newRGBA max_dim).paste t ((max_dim - t.width) / 2) ((max_dim - t.height) / 2)

/-- Step 4 of `process_badge`: apply the circular mask as alpha. -/
def maskCircle (sq : Image) : Image :=
  sq.putalphaMask (circleMask sq.width)

/-- A resampling filter: given the source image and the target
dimensions, produces each target pixel.  Stands for PIL's
`Image.LANCZOS` resampler, whose floating-point kernel is not embedded;
the properties assumed of it are stated separately. -/
def Resampler : Type :=
  Image → Nat → Nat → Nat → Nat → Pixel

/-- PIL `img.resize((w, h), filter)`. -/
def Image.resizeWith (img : Image) (Rf : Resampler) (w h : Nat) : Image where
  width := w
  height := h
  pix := fun x y => Rf img w h x y

/-- `os.path.dirname`: everything before the last `/`, empty if none. -/
def dirname (p : String) : String :=
  match (p.toList.reverse.dropWhile (fun c => c ≠ '/')) with
  | [] => ""
  | _ :: rest => String.mk rest.reverse

/-- `os.path.join` for the shapes this script produces: an empty
directory yields the bare filename; a directory ending in `/` is not
given another separator. -/
def joinPath (d f : String) : String :=
  if d = "" then f
  else if d.toList.getLast? = some '/' then d ++ f
  else d ++ "/" ++ f

/-- Everything `process_badge` produces for one source image. -/
structure BadgeResult where
  srcW : Nat
  srcH : Nat
  circle : Nat × Nat × Nat
  maxDim : Nat
  canvas : Image
  path1x : String
  path2x : String
  out1x : Image
  out2x : Image

instance : Inhabited BadgeResult :=
  ⟨⟨0, 0, (0, 0, 0), 0, default, "", "", default, default⟩⟩

/-- `process_badge(src_path, output_name)` on a loaded image, for a given
resampler.  Returns `none` when `find_circle_bounds` fails (uncaught
`TypeError` in Python). -/
def process_badge (Rf : Resampler) (srcPath outputName : String) (img : Image) :
    Option BadgeResult :=
  let sq := cropToSquare img
  match find_circle_bounds sq 50 with
  | none => none
  | some (cx, cy, radius) =>
      let masked := maskCircle (padToSquare (tightCrop sq cx cy radius))
      let out_dir := dirname srcPath
      some
        { srcW := img.width
          srcH := img.height
          circle := (cx, cy, radius)
          maxDim := masked.width
          canvas := masked
          path1x := joinPath out_dir (outputName ++ ".png")
          path2x := joinPath out_dir (outputName ++ "@2x.png")
          out1x := masked.resizeWith Rf 256 256
          out2x := masked.resizeWith Rf 512 512 }

/-- The module docstring, printed as usage text when the argument count
is wrong. -/
def usageText : String :=
  "\nバッジ元画像をアイコン用に加工するスクリプト\n\n使い方:\n  python3 server/scripts/process-badge-image.py <元画像> <出力名>\n\n例:\n  python3 server/scripts/process-badge-image.py public/images/badges/source.png penguin\n  → public/images/badges/penguin.png (256x256)\n  → public/images/badges/penguin@2x.png (512x512)\n"

/-- Outcome of one CLI invocation: exit status, the output files written
(in order), and the lines printed to standard output.  The per-file
size report depends on PNG encoding and is not modelled. -/
structure CliResult where
  exitCode : Nat
  written : List String
  printed : List String
deriving DecidableEq

/-- The `__main__` block: argument-count check, existence check, then
`process_badge`.  `exists?` models `os.path.exists`, `load` models
`Image.open`.  An uncaught exception (failed detection) terminates the
interpreter with status 1 and writes nothing. -/
def run_main (Rf : Resampler) (argv : List String)
    (exists? : String → Bool) (load : String → Image) : CliResult :=
  match argv with
  | [src, name] =>
      if exists? src then
        match process_badge Rf src name (load src) with
        | some res =>
            { exitCode := 0
              written := [res.path1x, res.path2x]
              printed :=
                ["元画像: " ++ toString res.srcW ++ "x" ++ toString res.srcH,
                 "円検出: center=(" ++ toString res.circle.1 ++ ","
                   ++ toString res.circle.2.1 ++ "), radius="
                   ++ toString res.circle.2.2,
                 "Done!"] }
        | none =>
            { exitCode := 1
              written := []
              printed := ["元画像: " ++ toString (load src).width ++ "x"
                ++ toString (load src).height] }
      else
        { exitCode := 1, written := [], printed := ["Error: " ++ src ++ " not found"] }
  | _ => { exitCode := 1, written := [], printed := [usageText] }

/-- A filesystem: path to stored image (file contents beyond pixel data
are not modelled). -/
def FS : Type :=
  String → Option Image

/-- One run of the pipeline on a filesystem, with the source pixels
given explicitly (the same source bytes for every run): the two output
files are written, everything else is untouched; a failed run writes
nothing. -/
def runFS (Rf : Resampler) (srcPath name : String) (img : Image) (fs : FS) : FS :=
  match process_badge Rf srcPath name img with
  | none => fs
  | some res => fun p =>
      if p = res.path2x then some res.out2x
      else if p = res.path1x then some res.out1x
      else fs p

/-- A fully white, fully opaque square image of side `n`. -/
def whiteImage (n : Nat) : Image where
  width := n
  height := n
  pix := fun _ _ => ⟨255, 255, 255, 255⟩

/-- A fully black, fully opaque square image of side `n`. -/
def blackImage (n : Nat) : Image where
  width := n
  height := n
  pix := fun _ _ => ⟨0, 0, 0, 255⟩

/-- Synthetic test input: a solid bright (white) disc of radius `R`
centred at pixel `(c, c)` on a dark, fully opaque background, in an
`n`×`n` image. -/
def diskImage (n c R : Nat) : Image where
  width := n
  height := n
  pix := fun x y =>
    if ((x : Int) - c) ^ 2 + ((y : Int) - c) ^ 2 ≤ (R : Int) ^ 2 then
      ⟨255, 255, 255, 255⟩
    else ⟨0, 0, 0, 255⟩

/-- A 5×3 landscape image, fully white and opaque. -/
def img53 : Image where
  width := 5
  height := 3
  pix := fun _ _ => ⟨255, 255, 255, 255⟩

/-- A 3×3 fully opaque image whose only bright pixel is the centre. -/
def imgDot3 : Image where
  width := 3
  height := 3
  pix := fun x y => if x = 1 ∧ y = 1 then ⟨255, 255, 255, 255⟩ else ⟨0, 0, 0, 255⟩

/-- The nearest-neighbour resampler: a concrete local, deterministic
resampler used to instantiate theorems about resized outputs. -/
def nearestIdx (n d t : Nat) : Nat :=
  (2 * t + 1) * n / (2 * d)

/-- Nearest-neighbour resampling (clamped to the source bounds). -/
def Rnearest : Resampler := fun img w h tx ty =>
  img.pix (min (img.width - 1) (nearestIdx img.width w tx))
    (min (img.height - 1) (nearestIdx img.height h ty))

/-- The support window of PIL's convolution resampling, slightly
enlarged: resampling a length-`n` axis to length `d`, target index `t`
draws on source indices `s` with
`|s + 1/2 - (t + 1/2) * n/d| ≤ 3 * max(1, n/d) + 1`, cleared of
denominators.  (PIL uses half-width `3 * max(1, n/d)` around the
projected centre plus sub-pixel rounding; this window contains it.) -/
def inSupport (n d t s : Nat) : Prop :=
  (2 * (t : Int) + 1) * n - (6 * (max d n : Nat) + 2 * d) ≤ (2 * (s : Int) + 1) * d ∧
    (2 * (s : Int) + 1) * d ≤ (2 * (t : Int) + 1) * n + (6 * (max d n : Nat) + 2 * d)

instance (n d t s : Nat) : Decidable (inSupport n d t s) := by
  unfold inSupport; infer_instance

/-- A resampler is zero-alpha local if a target pixel whose entire
support window is fully transparent comes out fully transparent.  True
of PIL's normalized convolution filters (all weights are applied to
alpha 0). -/
def ZeroAlphaLocal (Rf : Resampler) : Prop :=
  ∀ img w h tx ty, 0 < img.width → 0 < img.height → tx < w → ty < h →
    (∀ sx sy, sx < img.width → sy < img.height →
      inSupport img.width w tx sx → inSupport img.height h ty sy →
      (img.pix sx sy).a = 0) →
    (Rf img w h tx ty).a = 0

/-- A resampler is opaque local if a target pixel whose entire support
window is fully opaque comes out fully opaque. -/
def OpaqueLocal (Rf : Resampler) : Prop :=
  ∀ img w h tx ty, 0 < img.width → 0 < img.height → tx < w → ty < h →
    (∀ sx sy, sx < img.width → sy < img.height →
      inSupport img.width w tx sx → inSupport img.height h ty sy →
      (img.pix sx sy).a = 255) →
    (Rf img w h tx ty).a = 255

/-- The concrete run on the 5×3 white image used as a witness input. -/
def res53 : BadgeResult :=
  (process_badge Rnearest "a/s.png" "o" img53).getD default

/-- The concrete run on the 33×33 white image used as a witness input
(its canvas side is 33 ≥ 30). -/
def res33 : BadgeResult :=
  (process_badge Rnearest "a/s.png" "o" (whiteImage 33)).getD default

/-- The concrete run on the single-bright-dot 3×3 image (its canvas
side is 3, far below the 16-pixel ellipse margin). -/
def resDot3 : BadgeResult :=
  (process_badge Rnearest "a/s.png" "o" imgDot3).getD default

lemma scanFirstLast_succ (isB : Nat → Bool) (n : Nat) :
    scanFirstLast isB (n + 1) = scanStep isB (scanFirstLast isB n) n := by
  unfold scanFirstLast
  rw [List.range_succ, List.foldl_append]
  rfl

lemma scan_fst_none_iff (isB : Nat → Bool) (n : Nat) :
    (scanFirstLast isB n).1 = none ↔ ∀ x, x < n → isB x = false := by
  induction n with
  | zero => simp [scanFirstLast]
  | succ n ih =>
    rw [scanFirstLast_succ]
    unfold scanStep
    by_cases hb : isB n
    · simp only [hb, if_true]
      constructor
      · intro h; exact absurd h (by simp)
      · intro h; exact absurd (h n (Nat.lt_succ_self n)) (by simp [hb])
    · simp only [hb, if_false, Bool.false_eq_true]
      rw [ih]
      constructor
      · intro h x hx
        rcases Nat.lt_succ_iff_lt_or_eq.mp hx with h' | h'
        · exact h x h'
        · subst h'; simpa using hb
      · intro h x hx; exact h x (Nat.lt_succ_of_lt hx)

lemma scan_snd_none_iff (isB : Nat → Bool) (n : Nat) :
    (scanFirstLast isB n).2 = none ↔ ∀ x, x < n → isB x = false := by
  induction n with
  | zero => simp [scanFirstLast]
  | succ n ih =>
    rw [scanFirstLast_succ]
    unfold scanStep
    by_cases hb : isB n
    · simp only [hb, if_true]
      constructor
      · intro h; exact absurd h (by simp)
      · intro h; exact absurd (h n (Nat.lt_succ_self n)) (by simp [hb])
    · simp only [hb, if_false, Bool.false_eq_true]
      rw [ih]
      constructor
      · intro h x hx
        rcases Nat.lt_succ_iff_lt_or_eq.mp hx with h' | h'
        · exact h x h'
        · subst h'; simpa using hb
      · intro h x hx; exact h x (Nat.lt_succ_of_lt hx)

lemma scan_fst_some (isB : Nat → Bool) (n : Nat) :
    ∀ a, (scanFirstLast isB n).1 = some a →
      a < n ∧ isB a = true ∧ ∀ x, x < a → isB x = false := by
  induction n with
  | zero => intro a h; simp [scanFirstLast] at h
  | succ n ih =>
    intro a h
    rw [scanFirstLast_succ] at h
    unfold scanStep at h
    by_cases hb : isB n
    · simp only [hb, if_true] at h
      rcases hfst : (scanFirstLast isB n).1 with _ | a0
      · rw [hfst] at h
        simp only [Option.getD_none, Option.some_inj] at h
        subst h
        exact ⟨Nat.lt_succ_self n, hb,
          fun x hx => (scan_fst_none_iff isB n).mp hfst x hx⟩
      · rw [hfst] at h
        simp only [Option.getD_some, Option.some_inj] at h
        subst h
        obtain ⟨h1, h2, h3⟩ := ih _ hfst
        exact ⟨Nat.lt_succ_of_lt h1, h2, h3⟩
    · simp only [hb, if_false, Bool.false_eq_true] at h
      obtain ⟨h1, h2, h3⟩ := ih a h
      exact ⟨Nat.lt_succ_of_lt h1, h2, h3⟩

lemma scan_snd_some (isB : Nat → Bool) (n : Nat) :
    ∀ b, (scanFirstLast isB n).2 = some b →
      b < n ∧ isB b = true ∧ ∀ x, b < x → x < n → isB x = false := by
  induction n with
  | zero => intro b h; simp [scanFirstLast] at h
  | succ n ih =>
    intro b h
    rw [scanFirstLast_succ] at h
    unfold scanStep at h
    by_cases hb : isB n
    · simp only [hb, if_true, Option.some_inj] at h
      subst h
      exact ⟨Nat.lt_succ_self n, hb, fun x hx hx' => absurd hx' (by omega)⟩
    · simp only [hb, if_false, Bool.false_eq_true] at h
      obtain ⟨h1, h2, h3⟩ := ih b h
      refine ⟨Nat.lt_succ_of_lt h1, h2, fun x hx hx' => ?_⟩
      rcases Nat.lt_succ_iff_lt_or_eq.mp hx' with h' | h'
      · exact h3 x hx h'
      · subst h'; simpa using hb

/-- If the bright set on `[0, n)` is exactly the interval `[a, b]`, the
scan returns `(some a, some b)`. -/
lemma scan_interval (isB : Nat → Bool) (n a b : Nat) (hab : a ≤ b) (hbn : b < n)
    (hiff : ∀ x, x < n → (isB x = true ↔ a ≤ x ∧ x ≤ b)) :
    scanFirstLast isB n = (some a, some b) := by
  have ha : isB a = true := (hiff a (by omega)).mpr ⟨le_refl a, hab⟩
  have hb' : isB b = true := (hiff b hbn).mpr ⟨hab, le_refl b⟩
  rcases hfst : (scanFirstLast isB n).1 with _ | a'
  · exact absurd ha (by simp [(scan_fst_none_iff isB n).mp hfst a (by omega)])
  rcases hsnd : (scanFirstLast isB n).2 with _ | b'
  · exact absurd ha (by simp [(scan_snd_none_iff isB n).mp hsnd a (by omega)])
  obtain ⟨ha1, ha2, ha3⟩ := scan_fst_some isB n a' hfst
  obtain ⟨hb1, hb2, hb3⟩ := scan_snd_some isB n b' hsnd
  have haa : a' = a := by
    have h1 : a ≤ a' := ((hiff a' ha1).mp ha2).1
    rcases Nat.lt_or_ge a' a with h | h
    · omega
    · rcases Nat.eq_or_lt_of_le h with h' | h'
      · omega
      · exact absurd ha (by simp [ha3 a h'])
  have hbb : b' = b := by
    have h1 : b' ≤ b := ((hiff b' hb1).mp hb2).2
    rcases Nat.eq_or_lt_of_le h1 with h' | h'
    · exact h'
    · exact absurd hb' (by simp [hb3 b h' hbn])
  have hpair : scanFirstLast isB n
      = ((scanFirstLast isB n).1, (scanFirstLast isB n).2) := rfl
  rw [hpair, hfst, hsnd, haa, hbb]

/-- Full characterization of a successful detection: the returned
values come from the least and greatest bright indices on the middle
row and middle column. -/
lemma find_circle_bounds_char (img : Image) (t cx cy r : Nat)
    (h : find_circle_bounds img t = some (cx, cy, r)) :
    ∃ fx lx fy ly,
      fx ≤ lx ∧ lx < img.width ∧
      bright (img.pix fx (img.height / 2)) t = true ∧
      bright (img.pix lx (img.height / 2)) t = true ∧
      (∀ x, x < fx → bright (img.pix x (img.height / 2)) t = false) ∧
      (∀ x, lx < x → x < img.width → bright (img.pix x (img.height / 2)) t = false) ∧
      fy ≤ ly ∧ ly < img.height ∧
      bright (img.pix (img.width / 2) fy) t = true ∧
      bright (img.pix (img.width / 2) ly) t = true ∧
      (∀ y, y < fy → bright (img.pix (img.width / 2) y) t = false) ∧
      (∀ y, ly < y → y < img.height → bright (img.pix (img.width / 2) y) t = false) ∧
      cx = (fx + lx) / 2 ∧ cy = (fy + ly) / 2 ∧
      r = max ((lx - fx) / 2) ((ly - fy) / 2) + 5 := by
  unfold find_circle_bounds at h
  rcases hh : scanFirstLast (fun x => bright (img.pix x (img.height / 2)) t) img.width
    with ⟨_ | fx, _ | lx⟩ <;>
    rcases hv : scanFirstLast (fun y => bright (img.pix (img.width / 2) y) t) img.height
      with ⟨_ | fy, _ | ly⟩ <;>
    rw [hh, hv] at h <;>
    simp only [Option.some.injEq, Prod.mk.injEq, reduceCtorEq] at h
  obtain ⟨hcx, hcy, hr⟩ := h
  obtain ⟨ha1, ha2, ha3⟩ := scan_fst_some _ _ fx (congrArg (fun p => p.1) hh)
  obtain ⟨hb1, hb2, hb3⟩ := scan_snd_some _ _ lx (congrArg (fun p => p.2) hh)
  obtain ⟨hc1, hc2, hc3⟩ := scan_fst_some _ _ fy (congrArg (fun p => p.1) hv)
  obtain ⟨hd1, hd2, hd3⟩ := scan_snd_some _ _ ly (congrArg (fun p => p.2) hv)
  have hfxlx : fx ≤ lx := by
    by_contra hlt
    exact absurd hb2 (by simp [ha3 lx (by omega)])
  have hfyly : fy ≤ ly := by
    by_contra hlt
    exact absurd hd2 (by simp [hc3 ly (by omega)])
  exact ⟨fx, lx, fy, ly, hfxlx, hb1, ha2, hb2, ha3, hb3,
    hfyly, hd1, hc2, hd2, hc3, hd3, hcx.symm, hcy.symm, hr.symm⟩

/-- Brightness of a disk-image pixel on the row through the centre. -/
lemma disk_row_bright (n c R x : Nat) :
    bright ((diskImage n c R).pix x c) 50 = true ↔
      ((x : Int) - c) ^ 2 ≤ (R : Int) ^ 2 := by
  show bright (if ((x : Int) - c) ^ 2 + ((c : Int) - c) ^ 2 ≤ (R : Int) ^ 2
      then (⟨255, 255, 255, 255⟩ : Pixel) else ⟨0, 0, 0, 255⟩) 50 = true ↔ _
  have h0 : ((c : Int) - c) ^ 2 = 0 := by ring
  simp only [h0, add_zero]
  by_cases hc : ((x : Int) - c) ^ 2 ≤ (R : Int) ^ 2 <;> simp [bright, hc]

/-- Brightness of a disk-image pixel on the column through the centre. -/
lemma disk_col_bright (n c R y : Nat) :
    bright ((diskImage n c R).pix c y) 50 = true ↔
      ((y : Int) - c) ^ 2 ≤ (R : Int) ^ 2 := by
  show bright (if ((c : Int) - c) ^ 2 + ((y : Int) - c) ^ 2 ≤ (R : Int) ^ 2
      then (⟨255, 255, 255, 255⟩ : Pixel) else ⟨0, 0, 0, 255⟩) 50 = true ↔ _
  have h0 : ((c : Int) - c) ^ 2 = 0 := by ring
  simp only [h0, zero_add]
  by_cases hc : ((y : Int) - c) ^ 2 ≤ (R : Int) ^ 2 <;> simp [bright, hc]

/-- `(x - c)² ≤ R²` over the integers describes the interval
`[c - R, c + R]` of naturals. -/
lemma sq_le_iff_interval (c R x : Nat) :
    ((x : Int) - c) ^ 2 ≤ (R : Int) ^ 2 ↔ (c - R ≤ x ∧ x ≤ c + R) := by
  constructor
  · intro h
    obtain ⟨h1, h2⟩ := abs_le_of_sq_le_sq' h (by positivity)
    omega
  · intro ⟨h1, h2⟩
    apply sq_le_sq' <;> omega

/-- Claim C1: on every successful detection, the returned bounding
circle is the integer midpoint/half-span construction over the first
and last bright indices of the middle row and middle column: `center_x`
is the integer midpoint of the first and last x-coordinate on row
`height / 2` whose channel average strictly exceeds the threshold,
`center_y` is the integer midpoint of the first and last such
y-coordinate on column `width / 2`, and the radius is the larger
integer half-span plus the fixed 5-pixel margin. -/
theorem find_circle_bounds_midline_spec (img : Image) (t cx cy r : Nat)
    (h : find_circle_bounds img t = some (cx, cy, r)) :
    ∃ fx lx fy ly,
      fx ≤ lx ∧ lx < img.width ∧
      bright (img.pix fx (img.height / 2)) t = true ∧
      bright (img.pix lx (img.height / 2)) t = true ∧
      (∀ x, x < fx → bright (img.pix x (img.height / 2)) t = false) ∧
      (∀ x, lx < x → x < img.width → bright (img.pix x (img.height / 2)) t = false) ∧
      fy ≤ ly ∧ ly < img.height ∧
      bright (img.pix (img.width / 2) fy) t = true ∧
      bright (img.pix (img.width / 2) ly) t = true ∧
      (∀ y, y < fy → bright (img.pix (img.width / 2) y) t = false) ∧
      (∀ y, ly < y → y < img.height → bright (img.pix (img.width / 2) y) t = false) ∧
      cx = (fx + lx) / 2 ∧ cy = (fy + ly) / 2 ∧
      r = max ((lx - fx) / 2) ((ly - fy) / 2) + 5 :=
  find_circle_bounds_char img t cx cy r h

/-- Witness for C1 at a concrete input: the all-white 3×3 image. -/
theorem find_circle_bounds_midline_spec_witness :
    find_circle_bounds (whiteImage 3) 50 = some (1, 1, 6) ∧
    ∃ fx lx fy ly,
      fx ≤ lx ∧ lx < (whiteImage 3).width ∧
      bright ((whiteImage 3).pix fx ((whiteImage 3).height / 2)) 50 = true ∧
      bright ((whiteImage 3).pix lx ((whiteImage 3).height / 2)) 50 = true ∧
      (∀ x, x < fx → bright ((whiteImage 3).pix x ((whiteImage 3).height / 2)) 50 = false) ∧
      (∀ x, lx < x → x < (whiteImage 3).width →
        bright ((whiteImage 3).pix x ((whiteImage 3).height / 2)) 50 = false) ∧
      fy ≤ ly ∧ ly < (whiteImage 3).height ∧
      bright ((whiteImage 3).pix ((whiteImage 3).width / 2) fy) 50 = true ∧
      bright ((whiteImage 3).pix ((whiteImage 3).width / 2) ly) 50 = true ∧
      (∀ y, y < fy → bright ((whiteImage 3).pix ((whiteImage 3).width / 2) y) 50 = false) ∧
      (∀ y, ly < y → y < (whiteImage 3).height →
        bright ((whiteImage 3).pix ((whiteImage 3).width / 2) y) 50 = false) ∧
      1 = (fx + lx) / 2 ∧ 1 = (fy + ly) / 2 ∧
      6 = max ((lx - fx) / 2) ((ly - fy) / 2) + 5 :=
  ⟨rfl, find_circle_bounds_midline_spec (whiteImage 3) 50 1 1 6 rfl⟩

/-- Claim C2: if the middle row (or the middle column) contains no
pixel whose channel average strictly exceeds the threshold, the
detector does not return a bounding circle: the Python midpoint
computation would use an unset bound (`None`), which raises, modelled
as `none`. -/
theorem find_circle_bounds_dark_midline (img : Image) (t : Nat)
    (h : (∀ x, x < img.width → bright (img.pix x (img.height / 2)) t = false) ∨
         (∀ y, y < img.height → bright (img.pix (img.width / 2) y) t = false)) :
    find_circle_bounds img t = none := by
  unfold find_circle_bounds
  rcases h with h | h
  · have h1 := (scan_fst_none_iff
      (fun x => bright (img.pix x (img.height / 2)) t) img.width).mpr h
    have h2 := (scan_snd_none_iff
      (fun x => bright (img.pix x (img.height / 2)) t) img.width).mpr h
    have hpair : scanFirstLast
        (fun x => bright (img.pix x (img.height / 2)) t) img.width = (none, none) :=
      Prod.ext_iff.mpr ⟨h1, h2⟩
    rw [hpair]
  · have h1 := (scan_fst_none_iff
      (fun y => bright (img.pix (img.width / 2) y) t) img.height).mpr h
    have h2 := (scan_snd_none_iff
      (fun y => bright (img.pix (img.width / 2) y) t) img.height).mpr h
    have hpair : scanFirstLast
        (fun y => bright (img.pix (img.width / 2) y) t) img.height = (none, none) :=
      Prod.ext_iff.mpr ⟨h1, h2⟩
    rw [hpair]
    rcases scanFirstLast
        (fun x => bright (img.pix x (img.height / 2)) t) img.width with ⟨_ | a, _ | b⟩ <;>
      rfl

/-- Witness for C2 at a concrete input: the all-black 4×4 image. -/
theorem find_circle_bounds_dark_midline_witness :
    (∀ x, x < (blackImage 4).width →
      bright ((blackImage 4).pix x ((blackImage 4).height / 2)) 50 = false) ∧
    find_circle_bounds (blackImage 4) 50 = none :=
  ⟨by decide, find_circle_bounds_dark_midline (blackImage 4) 50 (Or.inl (by decide))⟩

/-- Claim C10: a successful detection always returns a radius of at
least 5 and a centre inside the image bounds. -/
theorem find_circle_bounds_invariants (img : Image) (t cx cy r : Nat)
    (h : find_circle_bounds img t = some (cx, cy, r)) :
    5 ≤ r ∧ cx < img.width ∧ cy < img.height := by
  obtain ⟨fx, lx, fy, ly, hfl, hlw, _, _, _, _, hfl', hlh, _, _, _, _, hcx, hcy, hr⟩ :=
    find_circle_bounds_char img t cx cy r h
  refine ⟨by omega, ?_, ?_⟩
  · omega
  · omega

/-- Witness for C10 at a concrete input: the all-white 4×4 image. -/
theorem find_circle_bounds_invariants_witness :
    find_circle_bounds (whiteImage 4) 50 = some (1, 1, 6) ∧
    (5 ≤ 6 ∧ 1 < (whiteImage 4).width ∧ 1 < (whiteImage 4).height) :=
  ⟨rfl, find_circle_bounds_invariants (whiteImage 4) 50 1 1 6 rfl⟩

/-- Claim C3: on a synthetic image with a solid bright disk of radius
`R` centred at pixel `(n/2, n/2)` on a dark background, with the disk
inside the image, the detector returns exactly the true centre and the
radius `R + 5`. -/
theorem disk_detection_accuracy (n R : Nat) (hR : R ≤ n / 2) (hRn : n / 2 + R < n) :
    find_circle_bounds (diskImage n (n / 2) R) 50 = some (n / 2, n / 2, R + 5) := by
  have hrow : scanFirstLast
      (fun x => bright ((diskImage n (n / 2) R).pix x
        ((diskImage n (n / 2) R).height / 2)) 50) (diskImage n (n / 2) R).width
      = (some (n / 2 - R), some (n / 2 + R)) := by
    apply scan_interval _ _ _ _ (by omega) (by exact hRn)
    intro x hx
    show bright ((diskImage n (n / 2) R).pix x (n / 2)) 50 = true ↔ _
    rw [disk_row_bright, sq_le_iff_interval]
  have hcol : scanFirstLast
      (fun y => bright ((diskImage n (n / 2) R).pix
        ((diskImage n (n / 2) R).width / 2) y) 50) (diskImage n (n / 2) R).height
      = (some (n / 2 - R), some (n / 2 + R)) := by
    apply scan_interval _ _ _ _ (by omega) (by exact hRn)
    intro y hy
    show bright ((diskImage n (n / 2) R).pix (n / 2) y) 50 = true ↔ _
    rw [disk_col_bright, sq_le_iff_interval]
  unfold find_circle_bounds
  rw [hrow, hcol]
  show some ((n / 2 - R + (n / 2 + R)) / 2, (n / 2 - R + (n / 2 + R)) / 2,
    max ((n / 2 + R - (n / 2 - R)) / 2) ((n / 2 + R - (n / 2 - R)) / 2) + 5)
    = some (n / 2, n / 2, R + 5)
  have e1 : (n / 2 - R + (n / 2 + R)) / 2 = n / 2 := by omega
  have e2 : (n / 2 + R - (n / 2 - R)) / 2 = R := by omega
  rw [e1, e2, Nat.max_self]

/-- Witness for C3 at a concrete input: a radius-3 disk centred in a
9×9 image. -/
theorem disk_detection_accuracy_witness :
    (3 ≤ 9 / 2 ∧ 9 / 2 + 3 < 9) ∧
    find_circle_bounds (diskImage 9 (9 / 2) 3) 50 = some (9 / 2, 9 / 2, 3 + 5) :=
  ⟨by decide, disk_detection_accuracy 9 3 (by decide) (by decide)⟩

/-- Claim C7: with an argument count other than 2 the program prints
the usage text and exits with status 1 without touching any image. -/
theorem run_main_bad_argc (Rf : Resampler) (argv : List String)
    (exists? : String → Bool) (load : String → Image) (h : argv.length ≠ 2) :
    run_main Rf argv exists? load = ⟨1, [], [usageText]⟩ := by
  rcases argv with _ | ⟨a, _ | ⟨b, _ | ⟨c, rest⟩⟩⟩
  · rfl
  · rfl
  · exact absurd rfl h
  · rfl

/-- Witness for C7 at concrete inputs: zero arguments and three
arguments. -/
theorem run_main_bad_argc_witness :
    (([] : List String).length ≠ 2 ∧
      run_main Rnearest [] (fun _ => true) (fun _ => whiteImage 3)
        = ⟨1, [], [usageText]⟩) ∧
    ((["a", "b", "c"] : List String).length ≠ 2 ∧
      run_main Rnearest ["a", "b", "c"] (fun _ => true) (fun _ => whiteImage 3)
        = ⟨1, [], [usageText]⟩) :=
  ⟨⟨by decide, run_main_bad_argc Rnearest [] _ _ (by decide)⟩,
   ⟨by decide, run_main_bad_argc Rnearest ["a", "b", "c"] _ _ (by decide)⟩⟩

/-- Claim C6: with two arguments whose source path does not exist, the
program prints an error naming the path, exits with status 1, and
writes no output file (the existence check precedes any write). -/
theorem run_main_missing_source (Rf : Resampler) (src name : String)
    (exists? : String → Bool) (load : String → Image) (h : exists? src = false) :
    run_main Rf [src, name] exists? load
      = ⟨1, [], ["Error: " ++ src ++ " not found"]⟩ := by
  simp [run_main, h]

/-- Witness for C6 at a concrete input. -/
theorem run_main_missing_source_witness :
    ((fun _ : String => false) "nope.png" = false) ∧
    run_main Rnearest ["nope.png", "o"] (fun _ => false) (fun _ => whiteImage 3)
      = ⟨1, [], ["Error: " ++ "nope.png" ++ " not found"]⟩ :=
  ⟨rfl, run_main_missing_source Rnearest "nope.png" "o" _ _ rfl⟩

lemma string_append_left_cancel {d a b : String} (h : d ++ a = d ++ b) : a = b := by
  have hd : (d ++ a).data = (d ++ b).data := congrArg String.data h
  rw [String.data_append, String.data_append] at hd
  exact String.ext (List.append_cancel_left hd)

/-- `joinPath` is injective in its file argument. -/
lemma joinPath_inj {d a b : String} (h : joinPath d a = joinPath d b) : a = b := by
  unfold joinPath at h
  by_cases h0 : d = ""
  · simpa [h0] using h
  · by_cases h1 : d.toList.getLast? = some '/'
    · simp only [h0, if_false, h1, if_true] at h
      exact string_append_left_cancel h
    · simp only [h0, if_false, h1] at h
      exact string_append_left_cancel (string_append_left_cancel (by
        rwa [String.append_assoc, String.append_assoc] at h))

/-- Elimination form of a successful `process_badge` run: the detected
circle and the fully explicit result record. -/
lemma process_badge_some_elim (Rf : Resampler) (src name : String) (img : Image)
    (res : BadgeResult) (h : process_badge Rf src name img = some res) :
    ∃ cx cy r, find_circle_bounds (cropToSquare img) 50 = some (cx, cy, r) ∧
      res =
        { srcW := img.width
          srcH := img.height
          circle := (cx, cy, r)
          maxDim := (maskCircle (padToSquare (tightCrop (cropToSquare img) cx cy r))).width
          canvas := maskCircle (padToSquare (tightCrop (cropToSquare img) cx cy r))
          path1x := joinPath (dirname src) (name ++ ".png")
          path2x := joinPath (dirname src) (name ++ "@2x.png")
          out1x := (maskCircle (padToSquare (tightCrop (cropToSquare img) cx cy r))).resizeWith
            Rf 256 256
          out2x := (maskCircle (padToSquare (tightCrop (cropToSquare img) cx cy r))).resizeWith
            Rf 512 512 } := by
  simp only [process_badge] at h
  rcases hf : find_circle_bounds (cropToSquare img) 50 with _ | ⟨cx, cy, r⟩ <;>
    rw [hf] at h
  · exact absurd h (by simp)
  · exact ⟨cx, cy, r, rfl, (Option.some_inj.mp h).symm⟩

/-- The two output paths of one run never coincide. -/
lemma process_badge_paths_ne (Rf : Resampler) (src name : String) (img : Image)
    (res : BadgeResult) (h : process_badge Rf src name img = some res) :
    res.path1x ≠ res.path2x := by
  obtain ⟨cx, cy, r, hf, hres⟩ := process_badge_some_elim Rf src name img res h
  rw [hres]
  intro heq
  have := string_append_left_cancel (joinPath_inj heq)
  exact absurd (congrArg String.data this) (by decide)

/-- Claim C9: the pipeline is deterministic: running it twice on the
same source bytes with the same output name leaves the filesystem
exactly as after the first run (the second run overwrites the first
run's files with identical contents), and after either run the two
output paths hold the run's outputs. -/
theorem runFS_deterministic (Rf : Resampler) (src name : String) (img : Image)
    (fs : FS) :
    runFS Rf src name img (runFS Rf src name img fs) = runFS Rf src name img fs ∧
    ∀ res, process_badge Rf src name img = some res →
      runFS Rf src name img fs res.path1x = some res.out1x ∧
      runFS Rf src name img fs res.path2x = some res.out2x := by
  constructor
  · funext p
    unfold runFS
    rcases hf : process_badge Rf src name img with _ | res
    · rfl
    · by_cases h2 : p = res.path2x <;> by_cases h1 : p = res.path1x <;>
        simp [h1, h2]
  · intro res hf
    unfold runFS
    rw [hf]
    have hne := process_badge_paths_ne Rf src name img res hf
    constructor
    · simp [hne]
    · simp

/-- Witness for C9 at a concrete input: the 5×3 white image over the
empty filesystem. -/
theorem runFS_deterministic_witness :
    runFS Rnearest "a/s.png" "o" img53 (runFS Rnearest "a/s.png" "o" img53 (fun _ => none))
      = runFS Rnearest "a/s.png" "o" img53 (fun _ => none) ∧
    ∀ res, process_badge Rnearest "a/s.png" "o" img53 = some res →
      runFS Rnearest "a/s.png" "o" img53 (fun _ => none) res.path1x = some res.out1x ∧
      runFS Rnearest "a/s.png" "o" img53 (fun _ => none) res.path2x = some res.out2x :=
  runFS_deterministic Rnearest "a/s.png" "o" img53 (fun _ => none)

/-- Claim C4: every completed run produces a 256×256 first output and a
512×512 second output regardless of the input dimensions, written into
the source image's directory under the output base name and the `@2x`
suffix. -/
theorem process_badge_output_format (Rf : Resampler) (src name : String)
    (img : Image) (res : BadgeResult) (h : process_badge Rf src name img = some res) :
    res.out1x.width = 256 ∧ res.out1x.height = 256 ∧
    res.out2x.width = 512 ∧ res.out2x.height = 512 ∧
    res.path1x = joinPath (dirname src) (name ++ ".png") ∧
    res.path2x = joinPath (dirname src) (name ++ "@2x.png") := by
  obtain ⟨cx, cy, r, hf, hres⟩ := process_badge_some_elim Rf src name img res h
  rw [hres]
  exact ⟨rfl, rfl, rfl, rfl, rfl, rfl⟩

/-- Witness for C4 at a concrete input: the non-square 5×3 white image
(output sizes do not depend on the 5:3 aspect ratio), with the concrete
output paths spelt out. -/
theorem process_badge_output_format_witness :
    img53.width = 5 ∧ img53.height = 3 ∧
    process_badge Rnearest "a/s.png" "o" img53 = some res53 ∧
    (res53.out1x.width = 256 ∧ res53.out1x.height = 256 ∧
      res53.out2x.width = 512 ∧ res53.out2x.height = 512 ∧
      res53.path1x = joinPath (dirname "a/s.png") ("o" ++ ".png") ∧
      res53.path2x = joinPath (dirname "a/s.png") ("o" ++ "@2x.png")) ∧
    res53.path1x = "a/o.png" ∧ res53.path2x = "a/o@2x.png" :=
  ⟨rfl, rfl, rfl, process_badge_output_format Rnearest "a/s.png" "o" img53 res53 rfl,
    rfl, rfl⟩

/-- Claim C8: the first compositing step crops the source to a square
of side equal to the full height, horizontally centred with left edge
`(width - height) / 2` (floor division) and top edge 0, and the circle
detector runs on that square crop. -/
theorem crop_to_square_spec (img : Image) :
    (cropToSquare img).width = img.height ∧
    (cropToSquare img).height = img.height ∧
    (∀ x y, img.height ≤ img.width → x < img.height → y < img.height →
      (cropToSquare img).pix x y = img.pix (x + (img.width - img.height) / 2) y) ∧
    (∀ Rf src name res, process_badge Rf src name img = some res →
      find_circle_bounds (cropToSquare img) 50 = some res.circle) := by
  refine ⟨?_, ?_, ?_, ?_⟩
  · show ((((img.width : Int) - img.height).fdiv 2 + img.height) -
        ((img.width : Int) - img.height).fdiv 2).toNat = img.height
    rw [add_sub_cancel_left]
    exact Int.toNat_natCast img.height
  · show (((img.height : Int)) - 0).toNat = img.height
    rw [sub_zero]
    exact Int.toNat_natCast img.height
  · intro x y hwh hx hy
    have hleft : ((img.width : Int) - img.height).fdiv 2
        = (((img.width - img.height) / 2 : Nat) : Int) := by
      have hc : ((img.width : Int) - img.height)
          = ((img.width - img.height : Nat) : Int) := by omega
      rw [hc, Int.fdiv_eq_ediv _ (by norm_num)]
      omega
    show (if 0 ≤ ((img.width : Int) - img.height).fdiv 2 + (x : Int) ∧
        ((img.width : Int) - img.height).fdiv 2 + (x : Int) < img.width ∧
        0 ≤ (0 : Int) + (y : Int) ∧ (0 : Int) + (y : Int) < img.height then
        img.pix (((img.width : Int) - img.height).fdiv 2 + (x : Int)).toNat
          ((0 : Int) + (y : Int)).toNat
      else ⟨0, 0, 0, 0⟩) = img.pix (x + (img.width - img.height) / 2) y
    rw [hleft]
    split_ifs with hcond
    · have e1 : (((((img.width - img.height) / 2 : Nat)) : Int) + (x : Int)).toNat
          = x + (img.width - img.height) / 2 := by omega
      have e2 : ((0 : Int) + (y : Int)).toNat = y := by omega
      rw [e1, e2]
    · exact (hcond (by omega)).elim
  · intro Rf src name res h
    obtain ⟨cx, cy, r, hf, hres⟩ := process_badge_some_elim Rf src name img res h
    rw [hres]
    exact hf

/-- Witness for C8 at a concrete input: the 5×3 white image; the crop
is 3×3 and its pixel (0,0) is the source pixel (1,0). -/
theorem crop_to_square_spec_witness :
    (cropToSquare img53).width = img53.height ∧
    (img53.height ≤ img53.width ∧ (cropToSquare img53).pix 0 0 = img53.pix 1 0) ∧
    process_badge Rnearest "a/s.png" "o" img53 = some res53 ∧
    find_circle_bounds (cropToSquare img53) 50 = some res53.circle :=
  ⟨(crop_to_square_spec img53).1,
   ⟨by decide, (crop_to_square_spec img53).2.2.1 0 0 (by decide) (by decide) (by decide)⟩,
   rfl,
   (crop_to_square_spec img53).2.2.2 Rnearest "a/s.png" "o" res53 rfl⟩

/-- Corner arithmetic, left/top edge: a source index in the support
window of target index 0 (for a ≥ 256-wide target) lies strictly
outside the inset disc in its coordinate. -/
lemma support_arith_lo (m d s : Int) (hd : 256 ≤ d) (hm : 16 ≤ m)
    (h2 : (2*s+1)*d ≤ 7*m + 8*d) :
    (m - 16)^2 < 2*(2*s - m)^2 := by
  have key : 512 * s ≤ 7 * m + 1792 := by
    rcases le_or_lt (2 * s) 7 with h | h
    · linarith
    · have h8 : (0:Int) ≤ 2*s - 7 := by linarith
      have hmul : (2*s - 7) * 256 ≤ (2*s - 7) * d :=
        mul_le_mul_of_nonneg_left hd h8
      have hexp : (2*s - 7) * d = (2*s+1)*d - 8*d := by ring
      nlinarith
  nlinarith [sq_nonneg (7*m + 1792 - 512*s), sq_nonneg (m - 16),
    mul_nonneg (show (0:Int) ≤ 7*m + 1792 - 512*s by linarith)
      (show (0:Int) ≤ 249*m - 1792 by linarith)]

/-- Corner arithmetic, right/bottom edge: a source index in the support
window of target index `d - 1` lies strictly outside the inset disc in
its coordinate. -/
lemma support_arith_hi (m d s : Int) (hd : 256 ≤ d) (hm : 16 ≤ m) (hs0 : 0 ≤ s)
    (h1 : (2*d-1)*m - (6*(d+m) + 2*d) ≤ (2*s+1)*d) :
    (m - 16)^2 < 2*(2*s - m)^2 := by
  have key : 505 * m - 2304 ≤ 512 * s ∨ 2*m ≤ 2*s + 9 := by
    rcases le_or_lt (2*m - 2*s - 9) 0 with h | h
    · right; linarith
    · left
      have h8 : (0:Int) ≤ 2*m - 2*s - 9 := by linarith
      have hmul : (2*m - 2*s - 9) * 256 ≤ (2*m - 2*s - 9) * d :=
        mul_le_mul_of_nonneg_left hd h8
      have hexp : (2*m - 2*s - 9) * d = 2*d*m - (2*s+1)*d - 8*d := by ring
      nlinarith
  rcases key with h | h
  · nlinarith [sq_nonneg (512*s - 505*m + 2304), sq_nonneg (m - 16),
      mul_nonneg (show (0:Int) ≤ 512*s - 505*m + 2304 by linarith)
        (show (0:Int) ≤ 249*m - 2304 by linarith)]
  · nlinarith [sq_nonneg (2*s - 2*m + 9)]

/-- Centre arithmetic: a source index in the support window of the
central target index lies inside the inset disc in its coordinate, for
a canvas of side at least 30. -/
lemma support_arith_center (m d s t : Int) (hd : 256 ≤ d) (hm : 30 ≤ m)
    (ht : 2*t = d)
    (h1 : (2*t+1)*m - (6*(d+m)+2*d) ≤ (2*s+1)*d)
    (h2 : (2*s+1)*d ≤ (2*t+1)*m + (6*(d+m)+2*d)) :
    2*(2*s - m)^2 ≤ (m - 16)^2 := by
  have hup : 256 * (2*s - m) ≤ 7*m + 1792 := by
    rcases le_or_lt (2*s - m) 6 with h | h
    · linarith
    · have h8 : (0:Int) ≤ 2*s - m - 7 := by linarith
      have hmul : (2*s - m - 7) * 256 ≤ (2*s - m - 7) * d :=
        mul_le_mul_of_nonneg_left hd h8
      have hexp : (2*s - m - 7)*d = (2*s+1)*d - m*d - 8*d := by ring
      have hmd : (2*t+1)*m = m*d + m := by rw [← ht]; ring
      nlinarith
  have hdown : 256 * (m - 2*s) ≤ 7*m + 2304 := by
    rcases le_or_lt (m - 2*s) 9 with h | h
    · linarith
    · have h8 : (0:Int) ≤ m - 2*s - 9 := by linarith
      have hmul : (m - 2*s - 9) * 256 ≤ (m - 2*s - 9) * d :=
        mul_le_mul_of_nonneg_left hd h8
      have hexp : (m - 2*s - 9)*d = m*d - (2*s+1)*d - 8*d := by ring
      have hmd : (2*t+1)*m = m*d + m := by rw [← ht]; ring
      nlinarith
  nlinarith [mul_nonneg (show (0:Int) ≤ 7*m + 1792 - 256*(2*s-m) by linarith)
      (show (0:Int) ≤ 7*m + 2304 + 256*(2*s-m) by linarith),
    sq_nonneg (m - 30), sq_nonneg (2*s - m)]

/-- A support-window member of a corner target index (0 or `d-1`) is
outside the inset disc in that coordinate. -/
lemma support_corner_outside (m d t s : Nat) (hd : 256 ≤ d) (hm : 16 ≤ m)
    (ht : t = 0 ∨ t + 1 = d) (hs : inSupport m d t s) :
    ((m:Int) - 16)^2 < 2*(2*(s:Int) - m)^2 := by
  obtain ⟨h1, h2⟩ := hs
  have hmax : ((max d m : Nat) : Int) ≤ (d:Int) + (m:Int) := by push_cast; omega
  rcases ht with rfl | htd
  · apply support_arith_lo (m:Int) (d:Int) (s:Int) (by exact_mod_cast hd)
      (by exact_mod_cast hm)
    simp only [Nat.cast_zero] at h2
    linarith
  · have ht' : (t : Int) = (d : Int) - 1 := by omega
    have heq : (2*(d:Int)-1)*(m:Int) = (2*(t:Int)+1)*m := by rw [ht']; ring
    apply support_arith_hi (m:Int) (d:Int) (s:Int) (by exact_mod_cast hd)
      (by exact_mod_cast hm) (by positivity)
    rw [heq]
    linarith

/-- A support-window member of the central target index is inside the
inset disc in that coordinate, for a canvas of side at least 30. -/
lemma support_center_inside (m d t s : Nat) (hd : 256 ≤ d) (hm : 30 ≤ m)
    (ht : 2*t = d) (hs : inSupport m d t s) :
    2*(2*(s:Int) - m)^2 ≤ ((m:Int) - 16)^2 := by
  obtain ⟨h1, h2⟩ := hs
  have hmax : ((max d m : Nat) : Int) ≤ (d:Int) + (m:Int) := by push_cast; omega
  have ht' : 2*(t:Int) = (d:Int) := by exact_mod_cast ht
  exact support_arith_center (m:Int) (d:Int) (s:Int) (t:Int)
    (by exact_mod_cast hd) (by exact_mod_cast hm) ht'
    (by linarith) (by linarith)

/-- The clamped nearest source index is in bounds and inside the
support window. -/
lemma nearest_in_window (n d t : Nat) (hn : 0 < n) (ht : t < d) :
    min (n-1) (nearestIdx n d t) < n ∧ inSupport n d t (min (n-1) (nearestIdx n d t)) := by
  have hd : 0 < d := by omega
  have hqlt : nearestIdx n d t < n :=
    Nat.div_lt_of_lt_mul ((Nat.mul_lt_mul_right hn).mpr (by omega))
  have hmin : min (n-1) (nearestIdx n d t) = nearestIdx n d t := by omega
  rw [hmin]
  refine ⟨hqlt, ?_, ?_⟩ <;>
  · have hdm := Nat.div_add_mod ((2*t+1)*n) (2*d)
    have hrem : (2*t+1)*n % (2*d) < 2*d := Nat.mod_lt _ (by omega)
    have hdmZ : 2*(d:Int) * (((2*t+1)*n / (2*d) : Nat) : Int)
        + (((2*t+1)*n % (2*d) : Nat) : Int) = (2*(t:Int)+1) * n := by
      exact_mod_cast hdm
    have hremZ : (((2*t+1)*n % (2*d) : Nat) : Int) < 2*(d:Int) := by
      exact_mod_cast hrem
    unfold nearestIdx
    linarith [hdmZ, hremZ, Int.natCast_nonneg ((2*t+1)*n % (2*d)),
      Int.natCast_nonneg (max d n), Int.natCast_nonneg d]

/-- The nearest-neighbour resampler is zero-alpha local. -/
lemma Rnearest_zeroAlphaLocal : ZeroAlphaLocal Rnearest := by
  intro img w h tx ty hw hh htx hty hwin
  obtain ⟨hx1, hx2⟩ := nearest_in_window img.width w tx hw htx
  obtain ⟨hy1, hy2⟩ := nearest_in_window img.height h ty hh hty
  exact hwin _ _ hx1 hy1 hx2 hy2

/-- The nearest-neighbour resampler is opaque local. -/
lemma Rnearest_opaqueLocal : OpaqueLocal Rnearest := by
  intro img w h tx ty hw hh htx hty hwin
  obtain ⟨hx1, hx2⟩ := nearest_in_window img.width w tx hw htx
  obtain ⟨hy1, hy2⟩ := nearest_in_window img.height h ty hh hty
  exact hwin _ _ hx1 hy1 hx2 hy2

/-- The mask is 0 when either coordinate is strictly outside the inset
disc. -/
lemma circleMask_eq_zero (m sx sy : Nat)
    (hx : 16 ≤ m → ((m:Int) - 16)^2 < 2*(2*(sx:Int) - m)^2)
    (hy : 16 ≤ m → ((m:Int) - 16)^2 < 2*(2*(sy:Int) - m)^2) :
    circleMask m sx sy = 0 := by
  unfold circleMask
  split_ifs with h
  · exact absurd h.2 (by have h1 := hx h.1; have h2 := hy h.1; nlinarith)
  · rfl

/-- The mask is 255 when both coordinates are inside half the inset
disc. -/
lemma circleMask_eq_opaque (m sx sy : Nat) (hm : 16 ≤ m)
    (hx : 2*(2*(sx:Int) - m)^2 ≤ ((m:Int) - 16)^2)
    (hy : 2*(2*(sy:Int) - m)^2 ≤ ((m:Int) - 16)^2) :
    circleMask m sx sy = 255 := by
  unfold circleMask
  rw [if_pos ⟨hm, by nlinarith⟩]

/-- Bounds of a successful detection (shared helper). -/
lemma find_some_bounds (img : Image) (t cx cy r : Nat)
    (h : find_circle_bounds img t = some (cx, cy, r)) :
    5 ≤ r ∧ cx < img.width ∧ cy < img.height := by
  obtain ⟨fx, lx, fy, ly, hfl, hlw, _, _, _, _, hfl', hlh, _, _, _, _, hcx, hcy, hr⟩ :=
    find_circle_bounds_char img t cx cy r h
  exact ⟨by omega, by omega, by omega⟩

/-- Structure of the masked canvas of a successful run: it is square of
positive side `maxDim`, and its alpha channel is exactly the circular
mask. -/
lemma process_canvas_structure (Rf : Resampler) (src name : String) (img : Image)
    (res : BadgeResult) (h : process_badge Rf src name img = some res) :
    res.canvas.width = res.maxDim ∧ res.canvas.height = res.maxDim ∧
    0 < res.maxDim ∧
    (∀ x y, (res.canvas.pix x y).a = circleMask res.maxDim x y) ∧
    res.out1x = res.canvas.resizeWith Rf 256 256 ∧
    res.out2x = res.canvas.resizeWith Rf 512 512 := by
  obtain ⟨cx, cy, r, hf, hres⟩ := process_badge_some_elim Rf src name img res h
  obtain ⟨hr5, hcx, hcy⟩ := find_some_bounds _ _ _ _ _ hf
  have hsq : (cropToSquare img).height = (cropToSquare img).width := by
    show (((img.height : Int)) - 0).toNat
      = ((((img.width : Int) - img.height).fdiv 2 + img.height)
        - ((img.width : Int) - img.height).fdiv 2).toNat
    rw [sub_zero, add_sub_cancel_left]
  have hcy' : cy < (cropToSquare img).width := by rw [← hsq]; exact hcy
  have htw : 0 < (tightCrop (cropToSquare img) cx cy r).width := by
    show 0 < (min ((cropToSquare img).width : Int) ((cx : Int) + r)
      - max 0 ((cx : Int) - r)).toNat
    omega
  have hth : 0 < (tightCrop (cropToSquare img) cx cy r).height := by
    show 0 < (min ((cropToSquare img).width : Int) ((cy : Int) + r)
      - max 0 ((cy : Int) - r)).toNat
    omega
  rw [hres]
  refine ⟨rfl, rfl, ?_, fun x y => rfl, rfl, rfl⟩
  show 0 < max (tightCrop (cropToSquare img) cx cy r).width
    (tightCrop (cropToSquare img) cx cy r).height
  omega

/-- Claim C5 (amended): for every completed run the masked canvas is
square; its alpha channel is 255 exactly inside the disc inset 8 pixels
from each canvas edge and 0 outside it, replacing any prior alpha (the
mask value does not depend on the source's alpha); for any resampler
that is local and conservative on constant-alpha windows, the four
corner pixels of both resized outputs have alpha 0; and the centre
pixel of both outputs is fully opaque provided the canvas side is at
least 30 (for canvas sides below 16 the inset ellipse is empty, the
whole canvas is transparent, and the original claim's centre-opacity
fails). -/
theorem masked_canvas_spec (Rf : Resampler) (src name : String) (img : Image)
    (res : BadgeResult) (hZ : ZeroAlphaLocal Rf) (hO : OpaqueLocal Rf)
    (h : process_badge Rf src name img = some res) :
    (res.canvas.width = res.maxDim ∧ res.canvas.height = res.maxDim) ∧
    (∀ x y, ((res.canvas.pix x y).a = 255 ↔
        16 ≤ res.maxDim ∧
          (2 * (x : Int) - res.maxDim) ^ 2 + (2 * (y : Int) - res.maxDim) ^ 2
            ≤ ((res.maxDim : Int) - 16) ^ 2) ∧
      ((res.canvas.pix x y).a = 255 ∨ (res.canvas.pix x y).a = 0)) ∧
    ((res.out1x.pix 0 0).a = 0 ∧ (res.out1x.pix 255 0).a = 0 ∧
      (res.out1x.pix 0 255).a = 0 ∧ (res.out1x.pix 255 255).a = 0 ∧
      (res.out2x.pix 0 0).a = 0 ∧ (res.out2x.pix 511 0).a = 0 ∧
      (res.out2x.pix 0 511).a = 0 ∧ (res.out2x.pix 511 511).a = 0) ∧
    (30 ≤ res.maxDim →
      (res.out1x.pix 128 128).a = 255 ∧ (res.out2x.pix 256 256).a = 255) := by
  obtain ⟨hcw, hch, hpos, halpha, ho1, ho2⟩ :=
    process_canvas_structure Rf src name img res h
  have halphaiff : ∀ x y, ((res.canvas.pix x y).a = 255 ↔
      16 ≤ res.maxDim ∧
        (2 * (x : Int) - res.maxDim) ^ 2 + (2 * (y : Int) - res.maxDim) ^ 2
          ≤ ((res.maxDim : Int) - 16) ^ 2) ∧
      ((res.canvas.pix x y).a = 255 ∨ (res.canvas.pix x y).a = 0) := by
    intro x y
    rw [halpha x y]
    unfold circleMask
    split_ifs with hc
    · exact ⟨by simp [hc], Or.inl rfl⟩
    · exact ⟨by simp [hc], Or.inr rfl⟩
  have hcorner : ∀ d tx ty, 256 ≤ d → (tx = 0 ∨ tx + 1 = d) → (ty = 0 ∨ ty + 1 = d) →
      (Rf res.canvas d d tx ty).a = 0 := by
    intro d tx ty hd htx hty
    apply hZ res.canvas d d tx ty (by rw [hcw]; exact hpos) (by rw [hch]; exact hpos)
      (by rcases htx with rfl | hh' <;> omega) (by rcases hty with rfl | hh' <;> omega)
    intro sx sy hsx hsy hwx hwy
    rw [halpha sx sy]
    rw [hcw] at hwx
    rw [hch] at hwy
    apply circleMask_eq_zero
    · intro h16; exact support_corner_outside res.maxDim d tx sx hd h16 htx hwx
    · intro h16; exact support_corner_outside res.maxDim d ty sy hd h16 hty hwy
  have hcenter : 30 ≤ res.maxDim → ∀ d t, 256 ≤ d → 2*t = d → t < d →
      (Rf res.canvas d d t t).a = 255 := by
    intro h30 d t hd ht htd
    have h16 : 16 ≤ res.maxDim := by omega
    apply hO res.canvas d d t t (by rw [hcw]; exact hpos) (by rw [hch]; exact hpos)
      htd htd
    intro sx sy hsx hsy hwx hwy
    rw [halpha sx sy]
    rw [hcw] at hwx
    rw [hch] at hwy
    exact circleMask_eq_opaque res.maxDim sx sy h16
      (support_center_inside res.maxDim d t sx hd h30 ht hwx)
      (support_center_inside res.maxDim d t sy hd h30 ht hwy)
  refine ⟨⟨hcw, hch⟩, halphaiff, ?_, ?_⟩
  · rw [ho1, ho2]
    exact ⟨hcorner 256 0 0 (by norm_num) (Or.inl rfl) (Or.inl rfl),
      hcorner 256 255 0 (by norm_num) (Or.inr rfl) (Or.inl rfl),
      hcorner 256 0 255 (by norm_num) (Or.inl rfl) (Or.inr rfl),
      hcorner 256 255 255 (by norm_num) (Or.inr rfl) (Or.inr rfl),
      hcorner 512 0 0 (by norm_num) (Or.inl rfl) (Or.inl rfl),
      hcorner 512 511 0 (by norm_num) (Or.inr rfl) (Or.inl rfl),
      hcorner 512 0 511 (by norm_num) (Or.inl rfl) (Or.inr rfl),
      hcorner 512 511 511 (by norm_num) (Or.inr rfl) (Or.inr rfl)⟩
  · intro h30
    rw [ho1, ho2]
    exact ⟨hcenter h30 256 128 (by norm_num) (by norm_num) (by norm_num),
      hcenter h30 512 256 (by norm_num) (by norm_num) (by norm_num)⟩

/-- A computed `getD` unfolding for options known to be `some`. -/
lemma eq_some_getD {α : Type} [Inhabited α] (o : Option α) (h : o.isSome = true) :
    o = some (o.getD default) := by
  cases o with
  | none => simp at h
  | some a => rfl

/-- Counterexample to C5 as stated: a completed run on a fully opaque
3×3 source whose only bright pixel is the centre.  The tight crop is
3×3, the ellipse bounding box `[8, 8, -5, -5]` is inverted so the mask
is empty, and the centre of both outputs is fully transparent even
though the source is fully opaque everywhere. -/
theorem masked_center_transparent_cex :
    process_badge Rnearest "a/s.png" "o" imgDot3 = some resDot3 ∧
    (∀ x, x < imgDot3.width → ∀ y, y < imgDot3.height → (imgDot3.pix x y).a = 255) ∧
    resDot3.maxDim = 3 ∧
    (resDot3.canvas.pix 1 1).a = 0 ∧
    (resDot3.out1x.pix 128 128).a = 0 ∧
    (resDot3.out2x.pix 256 256).a = 0 :=
  ⟨eq_some_getD _ (by decide), by decide, by decide, by decide, by decide, by decide⟩

/-- Witness for the amended C5 at a concrete input: the 33×33 white
image (canvas side 33 ≥ 30), with the nearest-neighbour resampler
instantiating the locality hypotheses. -/
theorem masked_canvas_spec_witness :
    process_badge Rnearest "a/s.png" "o" (whiteImage 33) = some res33 ∧
    30 ≤ res33.maxDim ∧
    res33.canvas.width = res33.maxDim ∧
    (res33.out1x.pix 0 0).a = 0 ∧ (res33.out2x.pix 511 511).a = 0 ∧
    (res33.out1x.pix 128 128).a = 255 ∧ (res33.out2x.pix 256 256).a = 255 := by
  have hrun : process_badge Rnearest "a/s.png" "o" (whiteImage 33) = some res33 :=
    eq_some_getD _ (by decide)
  obtain ⟨⟨hw, hh⟩, halpha, ⟨c1, c2, c3, c4, c5, c6, c7, c8⟩, hcenter⟩ :=
    masked_canvas_spec Rnearest "a/s.png" "o" (whiteImage 33) res33
      Rnearest_zeroAlphaLocal Rnearest_opaqueLocal hrun
  have h30 : 30 ≤ res33.maxDim := by decide
  obtain ⟨d1, d2⟩ := hcenter h30
  exact ⟨hrun, h30, hw, c1, c8, d1, d2⟩
